import Mathlib

/-!
# Verification of the logview server and client core

Shallow embedding of the logview repository's core algorithms:

* the tail engine's change handler (server/index.js, websocket "change" callback),
* the per-connection session coordinator (server/index.js, websocket "message" callback),
* the multi-file merger (server/index.js, POST /api/read-multi),
* the file grouper (server/index.js, POST /api/scan and POST /api/browse),
* the timestamp extraction cascade (src/components/LogViewer.jsx, extractTimestamp),
* the search matcher (src/components/LogViewer.jsx, buildSearchRegex).

File contents are modelled as lists of characters (the server decodes every
buffer as UTF-8 text before further processing, so byte index = character
index for the ASCII data these claims concern); file sizes are the lengths
of those lists.  JavaScript runtime primitives that the code relies on
(String.prototype.split with the /\r?\n/ separator, the stable
Array.prototype.sort, object-key insertion order, RegExp and Date string
parsing) are modelled explicitly below, each restricted to the fragment the
source code exercises.
-/

namespace Logview

/-! ## Shared string helpers -/

/-- Model of JavaScript `content.split(/\r?\n/)`: split a character list on
`"\r\n"` or `"\n"` separators (a lone `'\r'` is an ordinary character). -/
def splitCRLF : List Char → List (List Char)
  | [] => [[]]
  | '\r' :: '\n' :: rest => [] :: splitCRLF rest
  | c :: rest =>
    if c = '\n' then [] :: splitCRLF rest
    else
      match splitCRLF rest with
      | [] => [[c]]
      | l :: ls => (c :: l) :: ls

/-- Model of the server's trailing-empty-line removal:
`if (lines.length > 0 && lines[lines.length-1] === "") lines.pop()`. -/
def dropLastEmpty (ls : List (List Char)) : List (List Char) :=
  match ls.getLast? with
  | some [] => ls.dropLast
  | _ => ls

/-! ## Tail engine (server/index.js, `currentWatcher.on("change")`) -/

/-- Server-to-client messages sent on the websocket session channel. -/
inductive SrvMsg where
  | tailStarted (p : String)
  | newLines (lines : List (List Char))
  | truncated
  | tailStopped
  | errMsg (m : String)
deriving DecidableEq, Repr

/-- The tail engine's change handler (server/index.js lines 296-331).
Given the file's current content and the session's `lastSize`, it returns the
list of messages sent over the websocket and the updated `lastSize`:

* growth: read exactly `newSize - lastSize` bytes at offset `lastSize`, split
  into lines, drop empty fragments, send one `new-lines` batch if any line
  remains;
* shrink: send one `truncated` message;
* equal: send nothing.

In every case `lastSize` becomes `newSize`. -/
def onChange (content : List Char) (lastSize : Nat) : List SrvMsg × Nat :=
  let newSize := content.length
  if newSize > lastSize then
    let bytesToRead := newSize - lastSize
    let buf := (content.drop lastSize).take bytesToRead
    let newLines := (splitCRLF buf).filter (fun l => l ≠ [])
    ((if newLines.length > 0 then [SrvMsg.newLines newLines] else []), newSize)
  else if newSize < lastSize then
    ([SrvMsg.truncated], newSize)
  else
    ([], newSize)

/-! ## Session coordinator (server/index.js, `wss.on("connection")`) -/

/-- Client-to-server messages on the session channel. -/
inductive CliMsg where
  | tail (p : String)
  | stopTail
deriving DecidableEq, Repr

/-- Per-connection coordinator state: the active watcher (the watched path,
when one is active), the last requested file and the size baseline. -/
structure WsState where
  watcher : Option String
  file : Option String
  lastSize : Nat
deriving DecidableEq, Repr

/-- The coordinator's message handler (server/index.js lines 265-344).
`fsSize` models the filesystem: the size of each existing path.
Returns the new connection state and the messages sent to the client. -/
def handleMessage (fsSize : String → Option Nat) (s : WsState) :
    CliMsg → WsState × List SrvMsg
  | CliMsg.tail p =>
    -- clean up the previous watcher, then start a new one if the path exists
    let s1 : WsState := { s with watcher := none, file := some p }
    match fsSize p with
    | none => (s1, [SrvMsg.errMsg "File not found"])
    | some sz =>
      ({ s1 with lastSize := sz, watcher := some p }, [SrvMsg.tailStarted p])
  | CliMsg.stopTail =>
    match s.watcher with
    | some _ => ({ s with watcher := none }, [SrvMsg.tailStopped])
    | none => (s, [])

/-! ## Multi-file merger (server/index.js, POST /api/read-multi) -/

/-- What the filesystem holds at a requested path: nothing, a directory, or a
regular file with the given content (`stat.size` = content length). -/
inductive FsEntry where
  | missing
  | dir
  | file (content : List Char)
deriving DecidableEq

/-- The 10 MiB per-file read cap (`10 * 1024 * 1024` in the source). -/
def readCap : Nat := 10 * 1024 * 1024

/-- Model of node's `path.basename` for POSIX paths: the part after the last
`'/'`. -/
def basenameOf (p : String) : String :=
  ⟨((p.data.reverse).takeWhile (fun c => c ≠ '/')).reverse⟩

/-- A file-boundary marker in a merged line sequence. -/
structure FileMarker where
  fileName : String
  path : String
  startLine : Nat
  lineCount : Nat
deriving DecidableEq, Repr

/-- Accumulator of the read-multi loop: merged lines so far, running total
size, markers so far. -/
structure MultiAcc where
  lines : List (List Char)
  totalSize : Nat
  fileMarkers : List FileMarker
deriving DecidableEq

/-- One iteration of the read-multi loop body (server/index.js lines 518-545):
missing paths and directories are skipped; a file is read up to `readCap`
bytes from offset 0, split into lines with a single trailing empty element
removed, a marker is appended recording where its lines start, and its full
on-disk size is added to `totalSize`. -/
def readMultiStep (acc : MultiAcc) (req : String × FsEntry) : MultiAcc :=
  match req.2 with
  | FsEntry.missing => acc
  | FsEntry.dir => acc
  | FsEntry.file content =>
    let maxRead := min content.length readCap
    let buffer := content.take maxRead
    let lines := dropLastEmpty (splitCRLF buffer)
    { lines := acc.lines ++ lines
      totalSize := acc.totalSize + content.length
      fileMarkers := acc.fileMarkers ++
        [{ fileName := basenameOf req.1, path := req.1,
           startLine := acc.lines.length, lineCount := lines.length }] }

/-- The response of POST /api/read-multi. -/
structure MultiResult where
  lines : List (List Char)
  totalSize : Nat
  fileCount : Nat
  fileMarkers : List FileMarker
  fileName : String
deriving DecidableEq

/-- The read-multi merge over the requested paths (each paired with what the
filesystem holds there). -/
def readMulti (reqs : List (String × FsEntry)) : MultiResult :=
  let acc := reqs.foldl readMultiStep ⟨[], 0, []⟩
  { lines := acc.lines
    totalSize := acc.totalSize
    fileCount := acc.fileMarkers.length
    fileMarkers := acc.fileMarkers
    fileName := if acc.fileMarkers.length > 0
      then toString acc.fileMarkers.length ++ " files merged"
      else "(empty)" }

/-- The full route, including the `InvalidInput` check on an empty `paths`
array (HTTP 400 in the source). -/
def readMultiRoute (reqs : List (String × FsEntry)) : Except String MultiResult :=
  if reqs.isEmpty then Except.error "paths array is required"
  else Except.ok (readMulti reqs)

/-- Prefix sums: element `i` is the sum of the first `i` entries. -/
def prefixSums (cs : List Nat) : List Nat :=
  (List.range cs.length).map (fun i => ((cs.take i)).sum)

/-- The marker invariant maintained by the read-multi loop: marker start
lines are the prefix sums of the line counts, the line counts sum to the
number of merged lines, markers are sorted by start line and stay within the
merged range, and the marker ranges concatenate to exactly `[0, totalLines)`
(the partition property: no gaps, no overlaps). -/
def MultiAccInv (acc : MultiAcc) : Prop :=
  acc.fileMarkers.map (fun m => m.startLine)
      = prefixSums (acc.fileMarkers.map (fun m => m.lineCount)) ∧
  (acc.fileMarkers.map (fun m => m.lineCount)).sum = acc.lines.length ∧
  List.Pairwise (fun a b => a.startLine ≤ b.startLine) acc.fileMarkers ∧
  (∀ m ∈ acc.fileMarkers, m.startLine ≤ acc.lines.length) ∧
  (acc.fileMarkers.map (fun m => List.range' m.startLine m.lineCount)).flatten
      = List.range acc.lines.length

/-! ## File grouper (server/index.js, POST /api/scan and POST /api/browse) -/

/-- The four log extensions, reversed and preceded by a dot, lower case:
used to match the `\.(log|txt|out|err)` part of the source regexes against
the reversed tail of a file name. -/
def extsRev : List (List Char) :=
  [".log".data.reverse, ".txt".data.reverse, ".out".data.reverse, ".err".data.reverse]

/-- Does the reversed name `r` start with one of `.log`/`.txt`/`.out`/`.err`
reversed (case-insensitively)?  This is the suffix test
`\.(log|txt|out|err)$` of the source regexes. -/
def hasDotExtRev (r : List Char) : Bool :=
  extsRev.any (fun e => (r.take e.length).map Char.toLower = e)

/-- Suffix test for `\.(log|txt|out|err)(\.[0-9]+)?$` (case-insensitive), the
base log-file pattern shared by `/api/browse` and `/api/scan`. -/
def matchesLogBase (name : String) : Bool :=
  let r := name.data.reverse
  let ds := r.takeWhile Char.isDigit
  hasDotExtRev r ||
    (!ds.isEmpty &&
      match r.drop ds.length with
      | '.' :: rest => hasDotExtRev rest
      | _ => false)

/-- Suffix test for `\.log\.[a-z]+$` (case-insensitive): owner/lock style
sidecar files such as `app.log.owner`. -/
def matchesLogDotLetters (name : String) : Bool :=
  let r := name.data.reverse
  let ls := r.takeWhile Char.isAlpha
  !ls.isEmpty &&
    match r.drop ls.length with
    | '.' :: rest => (rest.take 4).map Char.toLower = ".log".data.reverse
    | _ => false

/-- File eligibility in `/api/scan` (lines 402-406): the base pattern must
match and `.log.<letters>` sidecar files are skipped. -/
def scanEligible (name : String) : Bool :=
  matchesLogBase name && !matchesLogDotLetters name

/-- File eligibility in `/api/browse` (line 50): the regex there is
`/\.(log|txt|out|err)(\.[0-9]+)?$|\.log\.[a-z]+$/i`, whose second
alternative admits `.log.<letters>` sidecar files. -/
def browseEligible (name : String) : Bool :=
  matchesLogBase name || matchesLogDotLetters name

/-- A scanned log file as collected by `/api/scan`. -/
structure LogFile where
  name : String
  dir : String
  size : Nat
  modified : Nat
deriving DecidableEq, Repr

/-- A logical group in the `/api/scan` response. -/
structure LogGroup where
  groupName : String
  files : List LogFile
  fileCount : Nat
  totalSize : Nat
  lastModified : Nat
  directories : List String
deriving DecidableEq, Repr

/-- Strip a reversed `.ext` head (one of the four log extensions), requiring a
nonempty remainder; this is the `^(.+)\.(log|txt|out|err)` part of the
grouping regexes, where `(.+)` needs at least one character. -/
def stripDotExtRev (r : List Char) : Option (List Char) :=
  extsRev.findSome? (fun e =>
    if (r.take e.length).map Char.toLower = e ∧ e.length < r.length
    then some (r.drop e.length) else none)

/-- The grouping key of a scanned file name (lines 430-445):
`foo.log.3 → foo`, `foo.log → foo`, `foo.txt → foo`, anything else is its own
key. -/
def groupKeyOf (name : String) : String :=
  let r := name.data.reverse
  let ds := r.takeWhile Char.isDigit
  let rolled : Option (List Char) :=
    if ds.isEmpty then none
    else
      match r.drop ds.length with
      | '.' :: rest => stripDotExtRev rest
      | _ => none
  match rolled with
  | some stemRev => ⟨stemRev.reverse⟩
  | none =>
    match stripDotExtRev r with
    | some stemRev => ⟨stemRev.reverse⟩
    | none => name

/-- Numeric value of a digit run (base 10, `parseInt(d, 10)`). -/
def digitsToNat (ds : List Char) : Nat :=
  ds.foldl (fun n c => n * 10 + (c.toNat - '0'.toNat)) 0

/-- The rotation number used by the in-group sort (lines 460-463): the value
of a trailing `\.([0-9]+)$` suffix, `0` when there is none. -/
def rollNumOf (name : String) : Nat :=
  let r := name.data.reverse
  let ds := r.takeWhile Char.isDigit
  if ds.isEmpty then 0
  else
    match r.drop ds.length with
    | '.' :: _ => digitsToNat ds.reverse
    | _ => 0

/-- Stable insertion used by `jsSort`. -/
def jsSortInsert (le : α → α → Bool) (x : α) : List α → List α
  | [] => [x]
  | y :: ys => if le x y then x :: y :: ys else y :: jsSortInsert le x ys

/-- Model of the (stable, ES2019+) JavaScript `Array.prototype.sort` with a
comparator: `le a b` means the comparator on `(a, b)` returns `≤ 0`, i.e.
`a` may stay before `b`.  A stable sort of a list under a total preorder is
unique, so insertion sort represents it faithfully. -/
def jsSort (le : α → α → Bool) : List α → List α
  | [] => []
  | x :: xs => jsSortInsert le x (jsSort le xs)

/-- Case-insensitive-style lexicographic comparison on character lists,
modelling `localeCompare` results `≤ 0` for the plain ASCII names used here. -/
def charsLe : List Char → List Char → Bool
  | [], _ => true
  | _ :: _, [] => false
  | a :: as, b :: bs => if a = b then charsLe as bs else decide (a < b)

/-- Append a file to its group in the insertion-ordered group table,
modelling the ordinary-string-key insertion order of a JavaScript object. -/
def pushGroup (gs : List (String × List LogFile)) (k : String) (f : LogFile) :
    List (String × List LogFile) :=
  match gs with
  | [] => [(k, [f])]
  | (k', fs) :: rest =>
    if k' = k then (k', fs ++ [f]) :: rest else (k', fs) :: pushGroup rest k f

/-- `[...new Set(xs)]`: deduplicate keeping first occurrences. -/
def dedupFirst (l : List String) : List String :=
  l.foldl (fun acc d => if d ∈ acc then acc else acc ++ [d]) []

/-- Build one `LogGroup` from a key and its collected files (lines 458-484):
sort rolled files highest rotation number first, the base file (number 0)
last, then aggregate size, newest modification time and distinct
directories. -/
def mkGroup (k : String) (fs : List LogFile) : LogGroup :=
  let sorted := jsSort (fun a b => decide (rollNumOf b.name ≤ rollNumOf a.name)) fs
  { groupName := k
    files := sorted
    fileCount := sorted.length
    totalSize := sorted.foldl (fun s f => s + f.size) 0
    lastModified := sorted.foldl (fun m f => if f.modified > m then f.modified else m) 0
    directories := dedupFirst (sorted.map (fun f => f.dir)) }

/-- The `/api/scan` grouping pipeline, from the list of files found by the
recursive directory walk (lines 402-494): filter by eligibility, group by
`groupKeyOf`, sort each group by rotation number descending, and sort the
groups by name, case-insensitively. -/
def scanGroups (found : List LogFile) : List LogGroup :=
  let eligible := found.filter (fun f => scanEligible f.name)
  let table := eligible.foldl (fun gs f => pushGroup gs (groupKeyOf f.name) f) []
  let result := table.map (fun g => mkGroup g.1 g.2)
  jsSort (fun a b => charsLe (a.groupName.data.map Char.toLower)
                             (b.groupName.data.map Char.toLower)) result

/-- A directory entry seen by `/api/browse`. -/
inductive DirEntry where
  | sub (name : String)
  | fileE (name : String) (size : Nat)
deriving DecidableEq

/-- `entry.name.startsWith(".")`: hidden entries are dot-prefixed. -/
def isHiddenName (n : String) : Bool :=
  match n.data with
  | '.' :: _ => true
  | _ => false

/-- The `files` list produced by `/api/browse` (lines 44-76): skip hidden
entries and directories, keep names matching the browse regex, sort
alphabetically.  Each kept file is returned as (name, size). -/
def browseFilesModel (entries : List DirEntry) : List (String × Nat) :=
  let files := entries.filterMap (fun e =>
    match e with
    | DirEntry.sub _ => none
    | DirEntry.fileE n s =>
      if isHiddenName n then none
      else if browseEligible n then some (n, s) else none)
  jsSort (fun a b => charsLe a.1.data b.1.data) files

/-! ## Search matcher (src/components/LogViewer.jsx, buildSearchRegex)

The JavaScript RegExp primitive is modelled by its source/flags pair plus
(a) a permissive syntactic validity check — the constructor throws on a
dangling backslash or an unterminated character class, which is exactly what
distinguishes the patterns these claims evaluate — and (b) a matching
function restricted to the constructs produced by buildSearchRegex's inputs
here: literal characters, backslash-escaped characters, `.`, and a leading
`^` anchor, with the `i` flag.  No theorem below evaluates the matcher on a
pattern outside that fragment. -/

/-- A compiled JavaScript regular expression: source and flags. -/
structure JSRegExp where
  source : List Char
  flags : List Char
deriving DecidableEq, Repr

/-- Syntactic validity scan of a RegExp source: tracks whether we are inside
a `[...]` class; a dangling backslash or an unterminated class is invalid
(the constructor throws).  `inClass` starts `false`. -/
def regexScanOk : Bool → List Char → Bool
  | false, [] => true
  | true, [] => false
  | _, ['\\'] => false
  | b, '\\' :: _ :: r => regexScanOk b r
  | false, '[' :: r => regexScanOk true r
  | true, ']' :: r => regexScanOk false r
  | b, _ :: r => regexScanOk b r

/-- The RegExp flag characters accepted by the delimited-query form. -/
def flagChar (c : Char) : Bool :=
  c = 'g' || c = 'i' || c = 'm' || c = 's' || c = 'u' || c = 'y'

/-- Model of `new RegExp(p, f)` wrapped in try/catch: `none` when the
constructor throws (invalid source syntax, or invalid/duplicated flags). -/
def jsRegExpNew (p f : List Char) : Option JSRegExp :=
  if regexScanOk false p ∧ f.all (fun c => flagChar c) ∧ f.Nodup
  then some ⟨p, f⟩ else none

/-- Character comparison under an optional case-insensitive flag. -/
def chEq (ci : Bool) (a b : Char) : Bool :=
  if ci then a.toLower = b.toLower else a = b

/-- Match the pattern fragment at the start of the input: literal characters,
backslash-escaped characters and `.` (any character except a line
terminator). -/
def reMatchHere (ci : Bool) : List Char → List Char → Bool
  | [], _ => true
  | '\\' :: c :: p, i :: is => chEq ci c i && reMatchHere ci p is
  | '\\' :: _ :: _, [] => false
  | ['\\'], _ => false
  | '.' :: p, i :: is => (i ≠ '\n' && i ≠ '\r') && reMatchHere ci p is
  | c :: p, i :: is => chEq ci c i && reMatchHere ci p is
  | _ :: _, [] => false

/-- Unanchored search: does the pattern match at some position? -/
def reSearch (ci : Bool) (p : List Char) : List Char → Bool
  | [] => reMatchHere ci p []
  | l@(_ :: rest) => reMatchHere ci p l || reSearch ci p rest

/-- Model of `regex.test(s)` for the fragment above: a leading `^` anchors
the match at the start, otherwise search every position; `i` in the flags
makes comparison case-insensitive. -/
def jsTest (r : JSRegExp) (s : String) : Bool :=
  let ci := 'i' ∈ r.flags
  match r.source with
  | '^' :: p => reMatchHere ci p s.data
  | p => reSearch ci p s.data

/-- The regex metacharacters escaped by `escapeRegex`
(`/[.*+?^${}()|[\]\\]/g` in the source). -/
def isRegexMeta (c : Char) : Bool :=
  c = '.' || c = '*' || c = '+' || c = '?' || c = '^' || c = '$' ||
  c = '{' || c = '}' || c = '(' || c = ')' || c = '|' ||
  c = '[' || c = ']' || c = '\\'

/-- `escapeRegex` (LogViewer.jsx lines 132-134): prefix every regex
metacharacter with a backslash. -/
def escapeRegex (s : String) : String :=
  ⟨s.data.foldr (fun c acc => if isRegexMeta c then '\\' :: c :: acc else c :: acc) []⟩

/-- Model of `search.match(/^\/(.+)\/([gimsuy]*)$/)` (line 116): the query is
`/pattern/flags` where the pattern is nonempty and contains no line
terminator (`.` does not cross those) and the flags are drawn from
`gimsuy`.  Because flag characters cannot include `/`, at most one split
position exists; it is found from the right. -/
def delimitedForm (s : String) : Option (String × String) :=
  match s.data with
  | '/' :: rest =>
    let r := rest.reverse
    let fr := r.takeWhile (fun c => flagChar c)
    match r.drop fr.length with
    | '/' :: midRev =>
      if midRev ≠ [] ∧ '\n' ∉ midRev ∧ '\r' ∉ midRev
      then some (⟨midRev.reverse⟩, ⟨fr.reverse⟩) else none
    | _ => none
  | _ => none

/-- `buildSearchRegex` (LogViewer.jsx lines 113-130): empty query gives no
matcher; a `/pattern/flags` query compiles the pattern with the given flags
(`"i"` when no flags are written), yielding `none` when the constructor
throws; any other query is escaped and compiled case-insensitively. -/
def buildSearchRegex (search : String) : Option JSRegExp :=
  if search = "" then none
  else
    match delimitedForm search with
    | some (p, f) => jsRegExpNew p.data (if f = "" then "i" else f).data
    | none => jsRegExpNew (escapeRegex search).data "i".data

/-! ## Timestamp extraction (src/components/LogViewer.jsx, extractTimestamp)

Each generic pattern of `TIMESTAMP_PATTERNS` is embedded as a consumer that
recognises the pattern at the head of a character list and returns the
unconsumed remainder; `firstMatch` then scans left to right for the first
position where the consumer succeeds, which is exactly the leftmost-match
semantics of `line.match(pattern)`.  The quantifiers appearing in these
patterns (`\d{n}`, `\s+`, and `\d{1,2}` with explicit two-then-one-digit
alternatives) are each followed by a character their class cannot match, so
greedy consumption without further backtracking coincides with the regex
engine's behaviour. -/

/-- Consume one decimal digit. -/
def eatD : List Char → Option (List Char)
  | c :: r => if c.isDigit then some r else none
  | [] => none

/-- Consume exactly `n` decimal digits. -/
def eatDn : Nat → List Char → Option (List Char)
  | 0, l => some l
  | n + 1, l => (eatD l).bind (eatDn n)

/-- Consume one given character. -/
def eatC (ch : Char) : List Char → Option (List Char)
  | c :: r => if c = ch then some r else none
  | [] => none

/-- The characters matched by the regex class `\s` (ASCII portion). -/
def isJsWs (c : Char) : Bool :=
  c = ' ' || c = '\t' || c = '\n' || c = '\r' || c = '\x0b' || c = '\x0c'

/-- Consume `\s+` (one or more whitespace characters, greedily). -/
def eatWs : List Char → Option (List Char)
  | c :: r => if isJsWs c then some (r.dropWhile isJsWs) else none
  | [] => none

/-- Consume `\d{2}:\d{2}:\d{2}`. -/
def eatTime (l : List Char) : Option (List Char) :=
  (eatDn 2 l).bind (eatC ':') |>.bind (eatDn 2) |>.bind (eatC ':') |>.bind (eatDn 2)

/-- `TIMESTAMP_PATTERNS[1]`: `(\d{4}-\d{2}-\d{2}T\d{2}:\d{2}:\d{2})`. -/
def isoHere (l : List Char) : Option (List Char) :=
  (eatDn 4 l).bind (eatC '-') |>.bind (eatDn 2) |>.bind (eatC '-')
    |>.bind (eatDn 2) |>.bind (eatC 'T') |>.bind eatTime

/-- `TIMESTAMP_PATTERNS[2]`: `\d{4}-\d{2}-\d{2}\s+\d{2}:\d{2}:\d{2}`. -/
def commonHere (l : List Char) : Option (List Char) :=
  (eatDn 4 l).bind (eatC '-') |>.bind (eatDn 2) |>.bind (eatC '-')
    |>.bind (eatDn 2) |>.bind eatWs |>.bind eatTime

/-- `TIMESTAMP_PATTERNS[3]`: `\[\d{4}-\d{2}-\d{2}\s+\d{2}:\d{2}:\d{2}`. -/
def bracketHere (l : List Char) : Option (List Char) :=
  (eatC '[' l).bind commonHere

/-- `TIMESTAMP_PATTERNS[4]`: `\d{2}\/\d{2}\/\d{4}\s+\d{2}:\d{2}:\d{2}`. -/
def usHere (l : List Char) : Option (List Char) :=
  (eatDn 2 l).bind (eatC '/') |>.bind (eatDn 2) |>.bind (eatC '/')
    |>.bind (eatDn 4) |>.bind eatWs |>.bind eatTime

/-- Consume one character of the given class. -/
def eatCls (cls : Char → Bool) : List Char → Option (List Char)
  | c :: r => if cls c then some r else none
  | [] => none

/-- `TIMESTAMP_PATTERNS[5]`: `[A-Z][a-z]{2}\s+\d{1,2}\s+\d{2}:\d{2}:\d{2}`
(the `\d{1,2}` tries two digits first, then one — regex backtracking). -/
def syslogHere (l : List Char) : Option (List Char) :=
  let afterDay := fun rest => (eatWs rest).bind eatTime
  let day := fun rest =>
    ((eatDn 2 rest).bind afterDay) <|> ((eatDn 1 rest).bind afterDay)
  (eatCls Char.isUpper l).bind (eatCls Char.isLower) |>.bind (eatCls Char.isLower)
    |>.bind eatWs |>.bind day

/-- Leftmost match of a pattern consumer: try every start position from the
left; on success return the matched text (the consumed characters). -/
def firstMatch (consume : List Char → Option (List Char)) :
    List Char → Option (List Char)
  | [] => (consume []).map (fun _ => [])
  | l@(_ :: rest) =>
    match consume l with
    | some r => some (l.take (l.length - r.length))
    | none => firstMatch consume rest

/-- `raw.replace(/^\[/, "")`: drop one leading opening bracket. -/
def stripLeadBracket : List Char → List Char
  | '[' :: r => r
  | l => l

/-- A parsed calendar timestamp (the value of a valid JavaScript `Date`
restricted to whole seconds, which is all these patterns produce). -/
structure JSDate where
  year : Nat
  month : Nat
  day : Nat
  hour : Nat
  minute : Nat
  second : Nat
deriving DecidableEq, Repr

/-- Leap years of the Gregorian calendar. -/
def isLeap (y : Nat) : Bool :=
  (y % 4 = 0 && y % 100 ≠ 0) || y % 400 = 0

/-- Days in a month. -/
def daysInMonth (y m : Nat) : Nat :=
  if m = 2 then (if isLeap y then 29 else 28)
  else if m = 4 || m = 6 || m = 9 || m = 11 then 30
  else 31

/-- Component range check shared by the date-string shapes: `new Date`
yields an Invalid Date when a component is out of range. -/
def dateOk (d : JSDate) : Bool :=
  1 ≤ d.month && d.month ≤ 12 && 1 ≤ d.day && d.day ≤ daysInMonth d.year d.month &&
  d.hour ≤ 23 && d.minute ≤ 59 && d.second ≤ 59

/-- Read exactly `n` digits and their value. -/
def readDn (n : Nat) (l : List Char) : Option (Nat × List Char) :=
  (eatDn n l).map (fun r =>
    (digitsToNat (l.take (l.length - r.length)), r))

/-- Read `HH:MM:SS`. -/
def readTime (l : List Char) : Option ((Nat × Nat × Nat) × List Char) := do
  let (h, r1) ← readDn 2 l
  let r2 ← eatC ':' r1
  let (m, r3) ← readDn 2 r2
  let r4 ← eatC ':' r3
  let (s, r5) ← readDn 2 r4
  pure ((h, m, s), r5)

/-- Parse `YYYY-MM-DD` + separator (`'T'` or whitespace) + `HH:MM:SS`. -/
def parseYmd (sepT : Bool) (l : List Char) : Option JSDate := do
  let (y, r1) ← readDn 4 l
  let r2 ← eatC '-' r1
  let (mo, r3) ← readDn 2 r2
  let r4 ← eatC '-' r3
  let (d, r5) ← readDn 2 r4
  let r6 ← if sepT then eatC 'T' r5 else eatWs r5
  let ((h, mi, s), r7) ← readTime r6
  if r7 = [] then pure ⟨y, mo, d, h, mi, s⟩ else none

/-- Parse `MM/DD/YYYY` + whitespace + `HH:MM:SS` (US legacy form). -/
def parseUs (l : List Char) : Option JSDate := do
  let (mo, r1) ← readDn 2 l
  let r2 ← eatC '/' r1
  let (d, r3) ← readDn 2 r2
  let r4 ← eatC '/' r3
  let (y, r5) ← readDn 4 r4
  let r6 ← eatWs r5
  let ((h, mi, s), r7) ← readTime r6
  if r7 = [] then pure ⟨y, mo, d, h, mi, s⟩ else none

/-- English month abbreviations, lower case. -/
def monthAbbrevs : List (List Char) :=
  ["jan".data, "feb".data, "mar".data, "apr".data, "may".data, "jun".data,
   "jul".data, "aug".data, "sep".data, "oct".data, "nov".data, "dec".data]

/-- Index of a month abbreviation (1-12). -/
def monthOfAbbrev (s : List Char) : Option Nat :=
  let lo := s.map Char.toLower
  (monthAbbrevs.indexOf? lo).map (fun i => i + 1)

/-- Parse `Mon D HH:MM:SS` / `Mon DD HH:MM:SS` (syslog legacy form; V8
defaults the missing year to 2001). -/
def parseSyslog (l : List Char) : Option JSDate := do
  let mo ← monthOfAbbrev (l.take 3)
  let r1 ← (eatCls Char.isUpper l).bind (eatCls Char.isLower) |>.bind (eatCls Char.isLower)
  let r2 ← eatWs r1
  let ds := r2.takeWhile Char.isDigit
  let r3 := r2.dropWhile Char.isDigit
  if ds = [] ∨ 2 < ds.length then none
  else do
    let r4 ← eatWs r3
    let ((h, mi, s), r5) ← readTime r4
    if r5 = [] then pure ⟨2001, mo, digitsToNat ds, h, mi, s⟩ else none

/-- Model of `new Date(string)` with the `isNaN(date.getTime())` validity
check, restricted to the string shapes producible by the generic timestamp
patterns: an ISO date-time, a space-separated date-time, a US-style
date-time, or a syslog month/day/time.  The result is `some` exactly when
the shape parses and its calendar components are in range, matching V8's
acceptance on these shapes. -/
def jsDateParse (l : List Char) : Option JSDate :=
  let cand := parseYmd true l <|> parseYmd false l <|> parseUs l <|> parseSyslog l
  cand.bind (fun d => if dateOk d then some d else none)

/-- The ordered generic pattern list `TIMESTAMP_PATTERNS[1..5]` as consumed
by the loop in extractTimestamp (lines 100-110). -/
def genericPatterns : List (List Char → Option (List Char)) :=
  [isoHere, commonHere, bracketHere, usHere, syslogHere]

/-- The generic-pattern loop of extractTimestamp (lines 100-110): for each
pattern in order, find its first structural match; if the matched text
(bracket-stripped) parses as a valid date, return it, otherwise move on to
the next pattern. -/
def tsLoop : List (List Char → Option (List Char)) → List Char → Option JSDate
  | [], _ => none
  | mh :: ms, l =>
    match firstMatch mh l with
    | some raw =>
      match jsDateParse (stripLeadBracket raw) with
      | some d => some d
      | none => tsLoop ms l
    | none => tsLoop ms l

/-- The generic-pattern stage of `extractTimestamp` applied to a line. -/
def extractTimestampGeneric (line : String) : Option JSDate :=
  tsLoop genericPatterns line.data

/-! ## Concrete inputs used by witnesses and counterexamples -/

/-- The three rotated-family file names of the grouping property, with
arbitrary sizes and modification times. -/
def appLog : LogFile := ⟨"app.log", "d", 5, 10⟩

/-- See `appLog`. -/
def appLog1 : LogFile := ⟨"app.log.1", "d", 7, 20⟩

/-- See `appLog`. -/
def appLog2 : LogFile := ⟨"app.log.2", "d", 9, 30⟩

/-- The single group that scanning the `app.log` family must produce. -/
def appGroup : LogGroup := ⟨"app", [appLog2, appLog1, appLog], 3, 21, 30, ["d"]⟩

/-- A 100-byte file that then grows by the 12 bytes `"hello\nworld\n"`. -/
def tailContentW : List Char := List.replicate 100 'x' ++ "hello\nworld\n".data

/-- A file one byte over the 10 MiB cap: `readCap` letters `a` followed by a
single `b`.  Its first `readCap` bytes are all `a`; its last `readCap` bytes
end in `b`. -/
def bigContent : List Char := List.replicate readCap 'a' ++ ['b']

/-- A line on which the second generic timestamp pattern structurally matches
text that is not a valid date, while the fourth pattern later matches a valid
one. -/
def cLine : String := "9999-99-99 99:99:99 01/15/2024 10:30:00"

/-! # Theorems -/

/-- C3: for every watched file whose size grows past `lastKnownSize`, the
change handler reads exactly the byte range `[lastKnownSize, newSize)` (the
whole appended region), splits it into lines, emits exactly one new-lines
batch containing the non-empty new lines — or nothing at all when no
non-empty line is present — and sets `lastKnownSize` to the new size. -/
theorem tail_growth_emits_one_batch (content : List Char) (lastSize : Nat)
    (h : lastSize < content.length) :
    onChange content lastSize =
      ((if (splitCRLF (content.drop lastSize)).filter (fun l => l ≠ []) = []
        then []
        else [SrvMsg.newLines
          ((splitCRLF (content.drop lastSize)).filter (fun l => l ≠ []))]),
       content.length) := by
  have htake : (content.drop lastSize).take (content.length - lastSize)
      = content.drop lastSize := by
    have hlen : (content.drop lastSize).length = content.length - lastSize :=
      List.length_drop _ _
    rw [← hlen, List.take_length]
  have hgt : content.length > lastSize := h
  simp only [onChange, htake, if_pos hgt]
  cases hb : (splitCRLF (content.drop lastSize)).filter (fun l => l ≠ []) with
  | nil => simp [hb]
  | cons x xs => simp [hb]

/-- Witness for C3: a 100-byte file grows by the bytes `"hello\nworld\n"`;
exactly one batch `["hello", "world"]` is emitted and `lastKnownSize`
becomes the new size, 112. -/
theorem tail_growth_emits_one_batch_witness :
    100 < tailContentW.length ∧
    onChange tailContentW 100
      = ([SrvMsg.newLines ["hello".data, "world".data]], 112) := by
  refine ⟨by decide, ?_⟩
  have h := tail_growth_emits_one_batch tailContentW 100 (by decide)
  rw [h]; decide

/-- C4: for every watched file whose size on a change event is strictly
smaller than `lastKnownSize`, the change handler emits exactly one
`truncated` signal (and no new-lines event), and sets `lastKnownSize` to the
new smaller size, the baseline for subsequent growth. -/
theorem tail_truncation_single_signal (content : List Char) (lastSize : Nat)
    (h : content.length < lastSize) :
    onChange content lastSize = ([SrvMsg.truncated], content.length) := by
  simp only [onChange]
  rw [if_neg (by omega), if_pos h]

/-- Witness for C4: a file of size 500 shrinks to 10 bytes; exactly one
`truncated` message is emitted and the baseline becomes 10. -/
theorem tail_truncation_single_signal_witness :
    (List.replicate 10 'x').length < 500 ∧
    onChange (List.replicate 10 'x') 500 = ([SrvMsg.truncated], 10) := by
  refine ⟨by decide, ?_⟩
  have h := tail_truncation_single_signal (List.replicate 10 'x') 500 (by decide)
  exact h.trans (by decide)

/-- C9 counterexample: a `stop-tail` received on a fresh connection (no
active watcher) emits no message at all — in particular no `tail-stopped` —
contradicting the claim that every `stop-tail` is answered with
`tail-stopped`. -/
theorem stop_tail_counterexample :
    (handleMessage (fun _ => none) ⟨none, none, 0⟩ CliMsg.stopTail).2 = [] ∧
    SrvMsg.tailStopped ∉
      (handleMessage (fun _ => none) ⟨none, none, 0⟩ CliMsg.stopTail).2 := by
  exact ⟨rfl, by decide⟩

/-- C9 amended: a `stop-tail` received while a watch is active releases the
watch and emits exactly one `tail-stopped` message; with no active watch it
is a no-op. -/
theorem stop_tail_when_active (fsSize : String → Option Nat) (s : WsState)
    (p : String) (h : s.watcher = some p) :
    handleMessage fsSize s CliMsg.stopTail
      = ({ s with watcher := none }, [SrvMsg.tailStopped]) := by
  simp only [handleMessage, h]

/-- Witness for the amended C9: stopping an active watch on `a.log`. -/
theorem stop_tail_when_active_witness :
    (⟨some "a.log", some "a.log", 3⟩ : WsState).watcher = some "a.log" ∧
    handleMessage (fun _ => none) ⟨some "a.log", some "a.log", 3⟩ CliMsg.stopTail
      = (⟨none, some "a.log", 3⟩, [SrvMsg.tailStopped]) :=
  ⟨rfl, stop_tail_when_active (fun _ => none) ⟨some "a.log", some "a.log", 3⟩ "a.log" rfl⟩

/-- C7 counterexample: `app.log.owner` matches `.log.<letters>`; the scan
excludes it, but the browse listing's regex admits it, so it does appear in
a single-directory browse listing — contradicting the claim that such files
are excluded in both places. -/
theorem sidecar_browse_counterexample :
    matchesLogDotLetters "app.log.owner" = true ∧
    scanEligible "app.log.owner" = false ∧
    browseEligible "app.log.owner" = true ∧
    browseFilesModel [DirEntry.fileE "app.log.owner" 3] = [("app.log.owner", 3)] ∧
    scanGroups [⟨"app.log.owner", "d", 3, 1⟩] = [] := by
  decide

/-- C7 amended: every file name matching `.log.<letters>` is excluded by the
scan's file-eligibility rule, but is admitted by the browse listing's
pattern (whose second alternative matches such names explicitly). -/
theorem sidecar_scan_excluded_browse_included (name : String)
    (h : matchesLogDotLetters name = true) :
    scanEligible name = false ∧ browseEligible name = true := by
  refine ⟨?_, ?_⟩
  · simp [scanEligible, h]
  · simp [browseEligible, h]

/-- Witness for the amended C7 at the name `app.log.owner`. -/
theorem sidecar_scan_excluded_browse_included_witness :
    matchesLogDotLetters "app.log.owner" = true ∧
    scanEligible "app.log.owner" = false ∧ browseEligible "app.log.owner" = true :=
  ⟨by decide, sidecar_scan_excluded_browse_included "app.log.owner" (by decide)⟩

/-- C1: scanning the files `app.log`, `app.log.1`, `app.log.2`, in any input
order, produces exactly one group, named `app`, whose files are ordered
`[app.log.2, app.log.1, app.log]` — rotation number descending with the
current (non-suffixed) file last. -/
theorem scan_groups_rotated_family (l : List LogFile)
    (h : l.Perm [appLog, appLog1, appLog2]) :
    scanGroups l = [appGroup] := by
  have hm : l ∈ List.permutations' [appLog, appLog1, appLog2] :=
    List.mem_permutations'.mpr h
  have hp : List.permutations' [appLog, appLog1, appLog2] =
      [[appLog, appLog1, appLog2], [appLog1, appLog, appLog2],
       [appLog1, appLog2, appLog], [appLog, appLog2, appLog1],
       [appLog2, appLog, appLog1], [appLog2, appLog1, appLog]] := by decide
  rw [hp] at hm
  fin_cases hm <;> decide

/-- Witness for C1 at one concrete input order, `[app.log.1, app.log.2,
app.log]`. -/
theorem scan_groups_rotated_family_witness :
    ([appLog1, appLog2, appLog] : List LogFile).Perm [appLog, appLog1, appLog2] ∧
    scanGroups [appLog1, appLog2, appLog] = [appGroup] :=
  ⟨by decide, scan_groups_rotated_family [appLog1, appLog2, appLog] (by decide)⟩

/-- C5 counterexample: on the line `cLine`, the second generic pattern
structurally matches the text `9999-99-99 99:99:99`, which does not parse as
a date (no earlier pattern matches structurally); the claim therefore
asserts that the timestamp is absent — but the code goes on to the later
US-style pattern, which matches and parses, so a timestamp IS produced. -/
theorem timestamp_first_match_counterexample :
    firstMatch isoHere cLine.data = none ∧
    firstMatch commonHere cLine.data = some ("9999-99-99 99:99:99".data) ∧
    jsDateParse (stripLeadBracket "9999-99-99 99:99:99".data) = none ∧
    extractTimestampGeneric cLine = some ⟨2024, 1, 15, 10, 30, 0⟩ := by
  decide

/-- C5 amended: the generic patterns are tried in their fixed order and the
result is the first pattern whose structural match also parses as a valid
date; a structural match whose text fails to parse does not stop the
cascade — later patterns are still tried — and the timestamp is absent only
when no pattern yields a parseable match. -/
theorem timestamp_first_parse_wins (line : String) :
    extractTimestampGeneric line =
      genericPatterns.findSome? (fun mh =>
        (firstMatch mh line.data).bind (fun raw =>
          jsDateParse (stripLeadBracket raw))) := by
  have hgen : ∀ (ms : List (List Char → Option (List Char))) (l : List Char),
      tsLoop ms l = ms.findSome? (fun mh =>
        (firstMatch mh l).bind (fun raw => jsDateParse (stripLeadBracket raw))) := by
    intro ms
    induction ms with
    | nil => intro l; rfl
    | cons mh ms ih =>
      intro l
      simp only [tsLoop, List.findSome?]
      cases hfm : firstMatch mh l with
      | none => simp only [Option.none_bind, ih l]
      | some raw =>
        cases hp : jsDateParse (stripLeadBracket raw) with
        | none => simp only [Option.some_bind, hp, ih l]
        | some d => simp only [Option.some_bind, hp]
  exact hgen genericPatterns line.data

/-- C8: buildMatcher behaviour — empty query yields no matcher; a
`/pattern/flags` query compiles the pattern as a regular expression with the
given flags, defaulting to case-insensitive when no flags are given, and
yields no matcher (fail open) when the pattern is invalid, as for `"/[/"`;
any other non-empty query is escaped and compiled as a case-insensitive
literal matcher, so `"err"` matches `"Error occurred"`. -/
theorem build_matcher_spec (q p f : String)
    (hd : delimitedForm q = some (p, f)) :
    buildSearchRegex "" = none ∧
    buildSearchRegex q = jsRegExpNew p.data (if f = "" then "i" else f).data ∧
    buildSearchRegex "/[/" = none ∧
    (∀ s : String, s ≠ "" → delimitedForm s = none →
      buildSearchRegex s = jsRegExpNew (escapeRegex s).data "i".data) ∧
    buildSearchRegex "err" = some ⟨"err".data, "i".data⟩ ∧
    jsTest ⟨"err".data, "i".data⟩ "Error occurred" = true := by
  refine ⟨rfl, ?_, by decide, ?_, by decide, by decide⟩
  · have hq : q ≠ "" := by
      intro he
      rw [he] at hd
      have hnone : delimitedForm "" = none := rfl
      rw [hnone] at hd
      exact Option.noConfusion hd
    simp only [buildSearchRegex, if_neg hq, hd]
  · intro s hs hns
    simp only [buildSearchRegex, if_neg hs, hns]

/-- Witness for C8 at the delimited query `"/^ERR/"`: the pattern `^ERR`
compiles with the default `i` flag and matches exactly the lines beginning
with `ERR`, case-insensitively. -/
theorem build_matcher_spec_witness :
    delimitedForm "/^ERR/" = some ("^ERR", "") ∧
    buildSearchRegex "/^ERR/" = jsRegExpNew "^ERR".data "i".data ∧
    jsTest ⟨"^ERR".data, "i".data⟩ "ERRor: boom" = true ∧
    jsTest ⟨"^ERR".data, "i".data⟩ "no ERR at start" = false :=
  ⟨by decide, (build_matcher_spec "/^ERR/" "^ERR" "" (by decide)).2.1,
   by decide, by decide⟩

/-- Appending one count to a list extends its prefix sums by the total of
the previous counts. -/
theorem prefixSums_concat (cs : List Nat) (c : Nat) :
    prefixSums (cs ++ [c]) = prefixSums cs ++ [cs.sum] := by
  unfold prefixSums
  rw [List.length_append, List.length_singleton, List.range_succ, List.map_append]
  congr 1
  · refine List.map_congr_left ?_
    intro i hi
    rw [List.take_append_of_le_length (le_of_lt (List.mem_range.mp hi))]
  · simp only [List.map_cons, List.map_nil, List.take_left]

/-- `range L` followed by `range' L n` enumerates `range (L + n)`. -/
theorem range_concat_range' (L n : Nat) :
    List.range L ++ List.range' L n = List.range (L + n) := by
  have h := List.range'_append_1 0 L n
  simpa [List.range_eq_range', Nat.add_comm] using h

/-- The marker invariant is preserved when a block of `ls` lines is merged
and a marker starting at the current end is appended. -/
theorem MultiAccInv_append (acc : MultiAcc) (ls : List (List Char))
    (fn pa : String) (sz : Nat) (h : MultiAccInv acc) :
    MultiAccInv ⟨acc.lines ++ ls, sz,
      acc.fileMarkers ++ [⟨fn, pa, acc.lines.length, ls.length⟩]⟩ := by
  obtain ⟨h1, h2, h3, h4, h5⟩ := h
  refine ⟨?_, ?_, ?_, ?_, ?_⟩
  · simp only [MultiAcc.fileMarkers, List.map_append, List.map_cons, List.map_nil,
      prefixSums_concat, h2, h1]
  · simp only [MultiAcc.fileMarkers, MultiAcc.lines, List.map_append, List.map_cons,
      List.map_nil, List.sum_append, List.sum_cons, List.sum_nil, h2,
      List.length_append, Nat.add_zero]
  · rw [List.pairwise_append]
    refine ⟨h3, List.pairwise_singleton _ _, ?_⟩
    intro a ha b hb
    rw [List.mem_singleton] at hb
    subst hb
    exact h4 a ha
  · intro m hm
    rw [List.mem_append] at hm
    rw [List.length_append]
    rcases hm with hm | hm
    · exact le_trans (h4 m hm) (Nat.le_add_right _ _)
    · rw [List.mem_singleton] at hm
      subst hm
      exact Nat.le_add_right _ _
  · simp only [MultiAcc.fileMarkers, MultiAcc.lines, List.map_append, List.map_cons,
      List.map_nil, List.flatten_append, List.flatten, List.append_nil, h5,
      List.length_append]
    exact range_concat_range' _ _

/-- The marker invariant is preserved by each iteration of the read-multi
loop. -/
theorem MultiAccInv_step (acc : MultiAcc) (req : String × FsEntry)
    (h : MultiAccInv acc) : MultiAccInv (readMultiStep acc req) := by
  obtain ⟨p, e⟩ := req
  cases e with
  | missing => exact h
  | dir => exact h
  | file content =>
    exact MultiAccInv_append acc
      (dropLastEmpty (splitCRLF (content.take (min content.length readCap))))
      (basenameOf p) p (acc.totalSize + content.length) h

/-- The marker invariant is preserved by the whole read-multi loop. -/
theorem MultiAccInv_foldl (reqs : List (String × FsEntry)) :
    ∀ acc : MultiAcc, MultiAccInv acc →
      MultiAccInv (reqs.foldl readMultiStep acc) := by
  induction reqs with
  | nil => intro acc h; exact h
  | cons r rs ih =>
    intro acc h
    exact ih _ (MultiAccInv_step acc r h)

/-- C2: for every merge, the returned file markers are sorted by start line,
the start line of marker `i` is the sum of the line counts of the markers
before it, the line counts sum to the length of the returned lines array,
and the marker ranges concatenate to exactly `[0, totalLines)` — a partition
with no gaps or overlaps. -/
theorem merge_marker_partition (reqs : List (String × FsEntry)) :
    (readMulti reqs).fileMarkers.map (fun m => m.startLine)
      = prefixSums ((readMulti reqs).fileMarkers.map (fun m => m.lineCount)) ∧
    ((readMulti reqs).fileMarkers.map (fun m => m.lineCount)).sum
      = (readMulti reqs).lines.length ∧
    List.Pairwise (fun a b => a.startLine ≤ b.startLine)
      (readMulti reqs).fileMarkers ∧
    ((readMulti reqs).fileMarkers.map
        (fun m => List.range' m.startLine m.lineCount)).flatten
      = List.range (readMulti reqs).lines.length := by
  have h0 : MultiAccInv ⟨[], 0, []⟩ := by
    refine ⟨rfl, rfl, List.Pairwise.nil, ?_, rfl⟩
    intro m hm
    cases hm
  have h := MultiAccInv_foldl reqs ⟨[], 0, []⟩ h0
  exact ⟨h.1, h.2.1, h.2.2.1, h.2.2.2.2⟩

/-- C10: a requested path that names a directory is skipped silently,
exactly like a missing path — the merge result is identical whether the
entry is a directory, missing, or absent from the request altogether (so it
contributes no lines, no marker, nothing to `totalSize` and nothing to
`fileCount`), and the merge still succeeds. -/
theorem merge_skips_directories (pre post : List (String × FsEntry))
    (p q : String) :
    readMulti (pre ++ (p, FsEntry.dir) :: post)
      = readMulti (pre ++ (q, FsEntry.missing) :: post) ∧
    readMulti (pre ++ (p, FsEntry.dir) :: post) = readMulti (pre ++ post) ∧
    readMultiRoute (pre ++ (p, FsEntry.dir) :: post)
      = Except.ok (readMulti (pre ++ post)) := by
  have hfold : ∀ acc : MultiAcc,
      (pre ++ (p, FsEntry.dir) :: post).foldl readMultiStep acc
        = (pre ++ post).foldl readMultiStep acc := by
    intro acc
    rw [List.foldl_append, List.foldl_append, List.foldl_cons]
    rfl
  have hfold' : ∀ acc : MultiAcc,
      (pre ++ (q, FsEntry.missing) :: post).foldl readMultiStep acc
        = (pre ++ post).foldl readMultiStep acc := by
    intro acc
    rw [List.foldl_append, List.foldl_append, List.foldl_cons]
    rfl
  have h1 : readMulti (pre ++ (p, FsEntry.dir) :: post)
      = readMulti (pre ++ post) := by
    unfold readMulti
    rw [hfold]
  have h2 : readMulti (pre ++ (q, FsEntry.missing) :: post)
      = readMulti (pre ++ post) := by
    unfold readMulti
    rw [hfold']
  refine ⟨h1.trans h2.symm, h1, ?_⟩
  have hne : ((pre ++ (p, FsEntry.dir) :: post).isEmpty) = false := by
    cases pre <;> rfl
  unfold readMultiRoute
  rw [hne]
  simp only [Bool.false_eq_true, if_false, h1]

/-- A character list without line terminators splits into a single line. -/
theorem splitCRLF_no_terminator (l : List Char)
    (h : ∀ c ∈ l, c ≠ '\n' ∧ c ≠ '\r') : splitCRLF l = [l] := by
  induction l with
  | nil => rfl
  | cons c rest ih =>
    have hc := h c (List.mem_cons_self _ _)
    have hr : splitCRLF rest = [rest] :=
      ih (fun x hx => h x (List.mem_cons_of_mem _ hx))
    rw [splitCRLF]
    · rw [if_neg hc.1, hr]
    · intro rest' h1 _
      exact hc.2 h1

/-- Trailing-empty-line removal is the identity when the last line is not
empty. -/
theorem dropLastEmpty_keep (ls : List (List Char))
    (h : ls.getLast? ≠ some []) : dropLastEmpty ls = ls := by
  unfold dropLastEmpty
  cases hg : ls.getLast? with
  | none => rfl
  | some x =>
    cases x with
    | nil => exact absurd hg h
    | cons a as => rfl

/-- A merge of one existing file, in closed form: the lines are the
capped-read split of the content, `totalSize` is the full content length,
and a single marker covers everything. -/
theorem readMulti_single (p : String) (content : List Char) :
    readMulti [(p, FsEntry.file content)]
      = { lines := dropLastEmpty (splitCRLF (content.take (min content.length readCap)))
          totalSize := content.length
          fileCount := 1
          fileMarkers := [⟨basenameOf p, p, 0,
            (dropLastEmpty (splitCRLF (content.take (min content.length readCap)))).length⟩]
          fileName := "1 files merged" } := by
  simp only [readMulti, readMultiStep, List.foldl, List.nil_append, Nat.zero_add,
    List.length_singleton, List.length_nil]
  rfl

/-- C6 counterexample: for the file `bigContent` (one byte over the cap,
`readCap` letters `a` then one `b`), the merge's lines are those of the
FIRST `readCap` bytes (all `a`), not those of the last `readCap` bytes: the
merged lines differ from the last-cap slice, and a merge fed that last-cap
slice would produce exactly it.  `totalSize` does sum the full on-disk
size. -/
theorem merge_cap_counterexample :
    (readMulti [("big.log", FsEntry.file bigContent)]).lines
      = [List.replicate readCap 'a'] ∧
    (readMulti [("big.log", FsEntry.file bigContent)]).lines
      ≠ [bigContent.drop (bigContent.length - readCap)] ∧
    (readMulti [("big.log",
        FsEntry.file (bigContent.drop (bigContent.length - readCap)))]).lines
      = [bigContent.drop (bigContent.length - readCap)] ∧
    (readMulti [("big.log", FsEntry.file bigContent)]).totalSize
      = bigContent.length := by
  have hcap : readCap ≠ 0 := by decide
  have hlen : bigContent.length = readCap + 1 := by
    unfold bigContent
    rw [List.length_append, List.length_replicate, List.length_singleton]
  have hmin : min bigContent.length readCap = readCap := by
    rw [hlen]; exact Nat.min_eq_right (Nat.le_succ _)
  have htake : bigContent.take readCap = List.replicate readCap 'a' := by
    unfold bigContent
    exact List.take_left' (List.length_replicate _ _)
  have hnoterm : ∀ c ∈ List.replicate readCap 'a', c ≠ '\n' ∧ c ≠ '\r' := by
    intro c hc
    rw [List.mem_replicate] at hc
    rw [hc.2]; exact ⟨by decide, by decide⟩
  have hsplit : splitCRLF (List.replicate readCap 'a') = [List.replicate readCap 'a'] :=
    splitCRLF_no_terminator _ hnoterm
  have hrepne : List.replicate readCap 'a' ≠ ([] : List Char) := by
    intro hx
    have hl := congrArg List.length hx
    rw [List.length_replicate, List.length_nil] at hl
    exact hcap hl
  have hdle : dropLastEmpty [List.replicate readCap 'a'] = [List.replicate readCap 'a'] := by
    apply dropLastEmpty_keep
    intro hx
    rw [List.getLast?_singleton] at hx
    exact hrepne (by injection hx)
  have hlines : (readMulti [("big.log", FsEntry.file bigContent)]).lines
      = [List.replicate readCap 'a'] := by
    rw [readMulti_single, hmin, htake, hsplit, hdle]
  have hone : bigContent.length - readCap = 1 := by rw [hlen]; omega
  have hdropBig : bigContent.drop (bigContent.length - readCap)
      = (List.replicate readCap 'a').drop 1 ++ ['b'] := by
    rw [hone]
    unfold bigContent
    exact List.drop_append_of_le_length (by rw [List.length_replicate]; omega)
  have hbmem : 'b' ∈ bigContent.drop (bigContent.length - readCap) := by
    rw [hdropBig]
    exact List.mem_append_right _ (List.mem_singleton.mpr rfl)
  have hbnot : 'b' ∉ List.replicate readCap 'a' := by
    intro hx
    rw [List.mem_replicate] at hx
    exact absurd hx.2 (by decide)
  have hne : (readMulti [("big.log", FsEntry.file bigContent)]).lines
      ≠ [bigContent.drop (bigContent.length - readCap)] := by
    rw [hlines]
    intro hx
    have heq : List.replicate readCap 'a'
        = bigContent.drop (bigContent.length - readCap) := by
      injection hx
    rw [← heq] at hbmem
    exact hbnot hbmem
  have hmemBig : ∀ c ∈ bigContent, c ≠ '\n' ∧ c ≠ '\r' := by
    intro c hc
    unfold bigContent at hc
    rw [List.mem_append] at hc
    rcases hc with hc | hc
    · rw [List.mem_replicate] at hc
      rw [hc.2]; exact ⟨by decide, by decide⟩
    · rw [List.mem_singleton] at hc
      rw [hc]; exact ⟨by decide, by decide⟩
  have hlenSlice : (bigContent.drop (bigContent.length - readCap)).length = readCap := by
    rw [List.length_drop, hlen]; omega
  have hminSlice : min (bigContent.drop (bigContent.length - readCap)).length readCap
      = readCap := by rw [hlenSlice]; exact Nat.min_self _
  have htakeSlice : (bigContent.drop (bigContent.length - readCap)).take readCap
      = bigContent.drop (bigContent.length - readCap) :=
    List.take_of_length_le (Nat.le_of_eq hlenSlice)
  have hsliceMem : ∀ c ∈ bigContent.drop (bigContent.length - readCap),
      c ≠ '\n' ∧ c ≠ '\r' := by
    intro c hc
    exact hmemBig c (List.drop_subset _ _ hc)
  have hsplitSlice : splitCRLF (bigContent.drop (bigContent.length - readCap))
      = [bigContent.drop (bigContent.length - readCap)] :=
    splitCRLF_no_terminator _ hsliceMem
  have hslicene : bigContent.drop (bigContent.length - readCap) ≠ [] := by
    intro hx
    have hl := congrArg List.length hx
    rw [hlenSlice, List.length_nil] at hl
    exact hcap hl
  have hdleSlice : dropLastEmpty [bigContent.drop (bigContent.length - readCap)]
      = [bigContent.drop (bigContent.length - readCap)] := by
    apply dropLastEmpty_keep
    intro hx
    rw [List.getLast?_singleton] at hx
    exact hslicene (by injection hx)
  have hlinesSlice : (readMulti [("big.log",
      FsEntry.file (bigContent.drop (bigContent.length - readCap)))]).lines
      = [bigContent.drop (bigContent.length - readCap)] := by
    rw [readMulti_single, hminSlice, htakeSlice, hsplitSlice, hdleSlice]
  have htot : (readMulti [("big.log", FsEntry.file bigContent)]).totalSize
      = bigContent.length := by
    rw [readMulti_single]
  exact ⟨hlines, hne, hlinesSlice, htot⟩

/-- C6 amended: for every merged file the 10 MiB cap reads the file's FIRST
`readCap` bytes — the merge's lines coincide with those of the file
truncated to its first `readCap` bytes — while `totalSize` still sums the
full on-disk size rather than the capped read size. -/
theorem merge_cap_reads_first_bytes (p : String) (content : List Char) :
    (readMulti [(p, FsEntry.file content)]).lines
      = (readMulti [(p, FsEntry.file (content.take readCap))]).lines ∧
    (readMulti [(p, FsEntry.file content)]).totalSize = content.length := by
  refine ⟨?_, by rw [readMulti_single]⟩
  rw [readMulti_single, readMulti_single]
  simp only [List.length_take, List.take_take]
  have hAB : content.length ⊓ readCap = readCap ⊓ content.length ⊓ readCap ⊓ readCap := by
    omega
  rw [hAB]

end Logview
